import Mathlib

/-!
Verification development for the copy-on-write AddressSpace and the
DistanceCalculator of a symbolic execution engine (KLEE fork).

The data model follows `lib/Core/AddressSpace.h` and
`lib/Core/DistanceCalculator.h`.  Method bodies that live outside the
available headers are modelled from the specification; each such
definition carries a doc comment starting with "Modelled from the spec".

The object-state store (`OSHeap`) makes pointer sharing explicit: an
`AddressSpace` binds `MemoryObject`s to object-state identifiers, and a
mutation through an identifier is visible to every address space holding
that identifier, exactly as mutation through a shared `ObjectState*`
would be in the C++ source.
-/

/-- Descriptor of one allocation, from the spec's data model for
`MemoryObject`: identity, base address, size and mutability flags. -/
structure MemoryObject where
  id : Nat
  address : Nat
  size : Nat
  isLocal : Bool
  isGlobal : Bool
  isReadOnly : Bool
deriving DecidableEq

/-- Modelled from the spec: the body of `MemoryObjectLT::operator()` is
not in the header; the spec says the map "is ordered by MO address (with
`id` as tie-breaker)". -/
def MemoryObjectLT (a b : MemoryObject) : Bool :=
  a.address < b.address || (a.address == b.address && a.id < b.id)

/-- Byte-level content of one `MemoryObject` plus the copy-on-write
owner stamp, from the spec's data model for `ObjectState`. -/
structure ObjectState where
  copyOnWriteOwner : Nat
  readOnly : Bool
  bytes : List Nat
deriving DecidableEq

/-- Modelled from the spec: `ObjectState::write` at a concrete offset
stores the byte at that offset. -/
def ObjectState.writeByte (os : ObjectState) (off v : Nat) : ObjectState :=
  { os with bytes := os.bytes.set off v }

/-- Modelled from the spec: `ObjectState::read` at a concrete offset
returns the byte there, when in bounds. -/
def ObjectState.readByte (os : ObjectState) (off : Nat) : Option Nat :=
  os.bytes.get? off

/-- The shared store of `ObjectState`s.  A cell identifier plays the
role of an `ObjectState*`; `nextId` is the allocation frontier. -/
structure OSHeap where
  cells : List (Nat × ObjectState)
  nextId : Nat
deriving DecidableEq

/-- Lookup of a heap cell (dereferencing an `ObjectState*`). -/
def lookupCell : List (Nat × ObjectState) → Nat → Option ObjectState
  | [], _ => none
  | c :: rest, i => if c.1 = i then some c.2 else lookupCell rest i

/-- In-place update of a heap cell (mutation through a shared pointer). -/
def setCell : List (Nat × ObjectState) → Nat → ObjectState → List (Nat × ObjectState)
  | [], _, _ => []
  | c :: rest, i, os => if c.1 = i then (i, os) :: rest else c :: setCell rest i os

def OSHeap.lookup (h : OSHeap) (i : Nat) : Option ObjectState :=
  lookupCell h.cells i

def OSHeap.set (h : OSHeap) (i : Nat) (os : ObjectState) : OSHeap :=
  { h with cells := setCell h.cells i os }

/-- Allocation of a fresh `ObjectState` cell. -/
def OSHeap.alloc (h : OSHeap) (os : ObjectState) : OSHeap × Nat :=
  ({ cells := (h.nextId, os) :: h.cells, nextId := h.nextId + 1 }, h.nextId)

/-- Well-formedness of the heap: every allocated cell lies below the
allocation frontier. -/
def OSHeap.wf (h : OSHeap) : Bool :=
  h.cells.all fun c => c.1 < h.nextId

/-- Write through a pointer: visible to every address space binding the
same cell identifier. -/
def OSHeap.writeByte (h : OSHeap) (i off v : Nat) : OSHeap :=
  match h.lookup i with
  | none => h
  | some os => h.set i (os.writeByte off v)

/-- Lookup in the `MemoryObject → ObjectState` association by MO
identity, as `MemoryMap` lookup does in the source. -/
def lookupMO : List (MemoryObject × Nat) → MemoryObject → Option Nat
  | [], _ => none
  | e :: rest, mo => if e.1 = mo then some e.2 else lookupMO rest mo

/-- Ordered insertion/overwrite into the `MemoryObject → ObjectState`
association, keeping the address order the source's `ImmutableMap`
maintains via `MemoryObjectLT`. -/
def mapInsert : List (MemoryObject × Nat) → MemoryObject → Nat → List (MemoryObject × Nat)
  | [], mo, i => [(mo, i)]
  | e :: rest, mo, i =>
    if MemoryObjectLT mo e.1 then (mo, i) :: e :: rest
    else if e.1 = mo then (mo, i) :: rest
    else e :: mapInsert rest mo i

/-- Strict sortedness of the binding list by `MemoryObjectLT` on keys:
the invariant of the source's ordered `MemoryMap`. -/
def sortedMap : List (MemoryObject × Nat) → Bool
  | [] => true
  | [_] => true
  | a :: b :: rest => MemoryObjectLT a.1 b.1 && sortedMap (b :: rest)

/-- The modulus of the source's 32-bit `unsigned` arithmetic:
`cowKey` is a `mutable unsigned`, so its increment wraps modulo `2^32`. -/
def u32Mod : Nat := 4294967296

/-- The address space from `AddressSpace.h`: the `cowKey` epoch counter
(a 32-bit `unsigned`, kept below `u32Mod`; every increment is taken
modulo `u32Mod`), the ordered `objects` map (binding a cell identifier
standing for the `ref<ObjectState>`), and the `complete` flag. -/
structure AddressSpace where
  cowKey : Nat
  objects : List (MemoryObject × Nat)
  complete : Bool
deriving DecidableEq

/-- The default constructor `AddressSpace() : cowKey(1)`. -/
def AddressSpace.init : AddressSpace :=
  { cowKey := 1, objects := [], complete := false }

/-- The copy constructor from the header, line 79:
`AddressSpace(const AddressSpace &b) : cowKey(++b.cowKey), objects(b.objects), complete(b.complete)`.
It pre-increments the source's `mutable unsigned cowKey` — C++ unsigned
arithmetic, so the increment wraps modulo `u32Mod` — and shares the map
spine; the heap is threaded unchanged because no `ObjectState` is
touched.  Returns (mutated source, new clone). -/
def AddressSpace.clone (b : AddressSpace) (h : OSHeap) :
    OSHeap × AddressSpace × AddressSpace :=
  (h, { b with cowKey := (b.cowKey + 1) % u32Mod },
    { cowKey := (b.cowKey + 1) % u32Mod, objects := b.objects,
      complete := b.complete })

/-- `findObject`: lookup of a binding by `MemoryObject` identity. -/
def AddressSpace.findObject (as : AddressSpace) (mo : MemoryObject) : Option Nat :=
  lookupMO as.objects mo

/-- Modelled from the spec: the body of `AddressSpace::bindObject` is
not in the header; the spec says `bind(mo, os)` "inserts/overwrites the
binding" and "OS's `copyOnWriteOwner` is set to `cowKey`". -/
def AddressSpace.bindObject (as : AddressSpace) (h : OSHeap) (mo : MemoryObject)
    (osId : Nat) : OSHeap × AddressSpace :=
  (match h.lookup osId with
   | none => h
   | some os => h.set osId { os with copyOnWriteOwner := as.cowKey },
   { as with objects := mapInsert as.objects mo osId })

/-- Modelled from the spec: the body of `AddressSpace::unbindObject` is
not in the header; the spec says `unbind(mo)` "removes the binding". -/
def AddressSpace.unbindObject (as : AddressSpace) (mo : MemoryObject) : AddressSpace :=
  { as with objects := as.objects.filter fun e => decide (e.1 ≠ mo) }

/-- Modelled from the spec: the body of `AddressSpace::getWriteable` is
not in the header; per the header's doc comment and the spec, when
`os.copyOnWriteOwner == cowKey` the binding is returned as-is, otherwise
the object state is cloned, the clone is stamped with `cowKey`, rebound,
and returned. -/
def AddressSpace.getWriteable (as : AddressSpace) (h : OSHeap) (mo : MemoryObject)
    (osId : Nat) : OSHeap × AddressSpace × Nat :=
  match h.lookup osId with
  | none => (h, as, osId)
  | some os =>
    if os.copyOnWriteOwner = as.cowKey then (h, as, osId)
    else
      let alloc := h.alloc { os with copyOnWriteOwner := as.cowKey }
      (alloc.1, { as with objects := mapInsert as.objects mo alloc.2 }, alloc.2)

/-- The header's documented invariant (line 68):
`forall o in objects, o->copyOnWriteOwner <= cowKey`. -/
def cowInvariant (h : OSHeap) (as : AddressSpace) : Bool :=
  as.objects.all fun e =>
    match h.lookup e.2 with
    | none => true
    | some os => os.copyOnWriteOwner ≤ as.cowKey

/-- Opaque handle to a symbolic pointer expression (`ref<PointerExpr>`);
its meaning lives entirely in the solver oracle. -/
structure PtrExpr where
  val : Nat
deriving DecidableEq

/-- The solver capability set the core consumes, from the spec's
external-interface section: each query may time out (`none`).
`pick` is `evaluate` (one concrete value), `range` is `getRange`,
`mayPointTo p mo` asks whether `p` may point into `mo`, and
`mustPointTo p mo` asks whether `p` can only point to `mo`. -/
structure Solver where
  pick : PtrExpr → Option Nat
  range : PtrExpr → Option (Nat × Nat)
  mayPointTo : PtrExpr → MemoryObject → Option Bool
  mustPointTo : PtrExpr → MemoryObject → Option Bool

/-- Modelled from the spec: the body of
`AddressSpace::checkPointerInObject` is not in the header.  Its header
contract: return 1 iff the resolution is incomplete (`maxResolutions`
reached or a query timed out), 0 iff `p` can only point to the given
memory object, and 2 otherwise; per the spec, a `maybe` answer appends
the pair and a `unique` answer sets the list to exactly that pair. -/
def checkPointerInObject (s : Solver) (p : PtrExpr) (e : MemoryObject × Nat)
    (rl : List (MemoryObject × Nat)) (maxRes : Nat) : List (MemoryObject × Nat) × Nat :=
  match s.mayPointTo p e.1 with
  | none => (rl, 1)
  | some false => (rl, 2)
  | some true =>
    let rl' := rl ++ [e]
    if maxRes ≠ 0 ∧ rl'.length = maxRes then (rl', 1)
    else
      match s.mustPointTo p e.1 with
      | none => (rl', 1)
      | some true => ([e], 0)
      | some false => (rl', 2)

/-- Modelled from the spec: the enumeration loop of
`AddressSpace::resolve`, whose body is not in the header.  Candidates
are visited in map order; the halt flag and the time budget (one tick
per candidate, `none` meaning no timeout) stop the loop early with
`incomplete = true`. -/
def resolveLoop (s : Solver) (p : PtrExpr) (halt : Bool) (maxRes : Nat) :
    List (MemoryObject × Nat) → List (MemoryObject × Nat) → Option Nat →
    List (MemoryObject × Nat) × Bool
  | [], rl, _ => (rl, false)
  | e :: rest, rl, budget =>
    if halt then (rl, true)
    else if budget = some 0 then (rl, true)
    else
      let step := checkPointerInObject s p e rl maxRes
      if step.2 = 0 then (step.1, false)
      else if step.2 = 1 then (step.1, true)
      else resolveLoop s p halt maxRes rest step.1 (budget.map (· - 1))

/-- Modelled from the spec: the body of `AddressSpace::resolve` is not
in the header.  It computes concrete bounds on `p` with the solver (a
timeout there is reported as incomplete), then scans the ordered map
restricted to candidates whose range meets `[min, max]`. -/
def AddressSpace.resolve (as : AddressSpace) (s : Solver) (p : PtrExpr) (halt : Bool)
    (maxRes : Nat) (budget : Option Nat) : List (MemoryObject × Nat) × Bool :=
  match s.range p with
  | none => ([], true)
  | some (mn, mx) =>
    resolveLoop s p halt maxRes
      (as.objects.filter fun e => decide (e.1.address ≤ mx ∧ mn < e.1.address + e.1.size))
      [] budget

/-- Result of symbolic `resolveOne`: the object pair when found, the
`success` flag, and the `incomplete` flag. -/
structure ResolveOneResult where
  result : Option (MemoryObject × Nat)
  success : Bool
  incomplete : Bool
deriving DecidableEq

/-- Modelled from the spec: the body of the symbolic
`AddressSpace::resolveOne` is not in the header.  Per the spec: get one
concrete value of `p` from the solver, look up the object containing it,
then ask the solver whether `p` is uniquely that object; any timeout
yields `incomplete = true`, ambiguity yields `success = false`. -/
def AddressSpace.resolveOne (as : AddressSpace) (s : Solver) (p : PtrExpr) :
    ResolveOneResult :=
  match s.pick p with
  | none => ⟨none, false, true⟩
  | some v =>
    match as.objects.find? fun e => decide (e.1.address ≤ v ∧ v < e.1.address + e.1.size) with
    | none => ⟨none, false, false⟩
    | some e =>
      match s.mustPointTo p e.1 with
      | none => ⟨none, false, true⟩
      | some true => ⟨some e, true, false⟩
      | some false => ⟨none, false, false⟩

/-- Modelled from the spec: the per-binding loop of
`AddressSpace::copyInConcretes`, whose body is not in the header.  Per
the header doc and the spec: an object state is written back from
external memory only when the external bytes differ; detecting a
modified read-only object aborts with `false`. -/
def copyInLoop (ext : MemoryObject → List Nat) :
    List (MemoryObject × Nat) → OSHeap → Bool × OSHeap
  | [], h => (true, h)
  | e :: rest, h =>
    match h.lookup e.2 with
    | none => copyInLoop ext rest h
    | some os =>
      if ext e.1 = os.bytes then copyInLoop ext rest h
      else if os.readOnly then (false, h)
      else copyInLoop ext rest (h.set e.2 { os with bytes := ext e.1 })

/-- Modelled from the spec: the body of `AddressSpace::copyInConcretes`
is not in the header; it scans all bindings with `copyInLoop`. -/
def AddressSpace.copyInConcretes (as : AddressSpace) (h : OSHeap)
    (ext : MemoryObject → List Nat) : Bool × OSHeap :=
  copyInLoop ext as.objects h

/-- A read-only violation pending in the heap: some binding refers to a
read-only object state whose external memory image differs. -/
def readOnlyViolation (h : OSHeap) (ext : MemoryObject → List Nat)
    (l : List (MemoryObject × Nat)) : Bool :=
  l.any fun e =>
    match h.lookup e.2 with
    | none => false
    | some os => os.readOnly && decide (ext e.1 ≠ os.bytes)

/-- The verdict enumeration from `DistanceCalculator.h`, line 23:
`Done = 0`, `Continue = 1`, `Miss = 2`. -/
inductive WeightResult where
  | Done
  | Continue
  | Miss
deriving DecidableEq

/-- The numeric value of each verdict in the source enumeration. -/
def WeightResult.rank : WeightResult → Nat
  | .Done => 0
  | .Continue => 1
  | .Miss => 2

/-- The `DistanceResult` record from `DistanceCalculator.h`, line 31. -/
structure DistanceResult where
  result : WeightResult
  weight : Nat
  isInsideFunction : Bool
deriving DecidableEq

/-- Modelled from the spec: the body of `DistanceResult::operator<` is
not in the header; the spec orders results lexicographically as
`(verdict rank, weight, !isInsideFunction)` with `Done < Continue <
Miss`, smaller weight first, and "inside function" preferred. -/
def DistanceResult.lt (a b : DistanceResult) : Bool :=
  if a.result.rank ≠ b.result.rank then decide (a.result.rank < b.result.rank)
  else if a.weight ≠ b.weight then decide (a.weight < b.weight)
  else a.isInsideFunction && !b.isInsideFunction

/-- Two results neither of which is below the other. -/
def DistanceResult.incomp (a b : DistanceResult) : Prop :=
  a.lt b = false ∧ b.lt a = false

/-- The `TargetKind` enumeration from `DistanceCalculator.h`, line 58. -/
inductive TargetKind where
  | LocalTarget
  | PreTarget
  | PostTarget
  | NoneTarget
deriving DecidableEq

/-- The code-graph capability set the spec requires: intraprocedural
block distances, call-graph distances, the function of each block, and
the call sites of a function together with their callees.  Blocks and
functions are opaque identifiers. -/
structure CodeGraph where
  blockDistance : Nat → Nat → Option Nat
  functionDistance : Nat → Nat → Option Nat
  funcOfBlock : Nat → Nat
  callSitesIn : Nat → List (Nat × Nat)

/-- Minimum of a list of weights, `none` when empty. -/
def minWeight (l : List Nat) : Option Nat :=
  l.foldr (fun x acc => match acc with | none => some x | some y => some (min x y)) none

/-- Modelled from the spec: the `Pre` dispatch of the distance
computation (`tryGetPreTargetWeight` has no body in the header): the
minimum over eligible call sites of the intraprocedural distance to the
call site plus the call-graph distance from its callee to the target's
function. -/
def preWeight (cg : CodeGraph) (kb target : Nat) : Option Nat :=
  minWeight <| (cg.callSitesIn (cg.funcOfBlock kb)).filterMap fun cs =>
    match cg.blockDistance kb cs.1, cg.functionDistance cs.2 (cg.funcOfBlock target) with
    | some w, some d => some (w + d)
    | _, _ => none

/-- Modelled from the spec: the dispatch of
`DistanceCalculator::computeDistance`, whose body is not in the header.
`Local`: intraprocedural shortest path, `Done` at weight 0; `Pre`:
`preWeight`; `Post`: weight from the return block onward (local when
already in the target's function, otherwise through call sites);
`None`: verdict `Miss` with weight 0. -/
def computeDistance (cg : CodeGraph) (kb : Nat) (kind : TargetKind) (target : Nat) :
    DistanceResult :=
  match kind with
  | .LocalTarget =>
    match cg.blockDistance kb target with
    | some 0 => ⟨.Done, 0, true⟩
    | some w => ⟨.Continue, w, true⟩
    | none => ⟨.Miss, 0, true⟩
  | .PreTarget =>
    match preWeight cg kb target with
    | some w => ⟨.Continue, w, false⟩
    | none => ⟨.Miss, 0, false⟩
  | .PostTarget =>
    match (if cg.funcOfBlock kb = cg.funcOfBlock target then cg.blockDistance kb target
           else preWeight cg kb target) with
    | some w => ⟨.Continue, w, false⟩
    | none => ⟨.Miss, 0, false⟩
  | .NoneTarget => ⟨.Miss, 0, true⟩

/-- A cache entry key: target block, current block, and target kind,
mirroring `distanceResultCache`'s nesting `target → (kb, kind) → result`. -/
abbrev DistKey := Nat × Nat × TargetKind

/-- The flattened `distanceResultCache`. -/
abbrev DistCache := List (DistKey × DistanceResult)

/-- Cache lookup by key identity. -/
def cacheLookup : DistCache → DistKey → Option DistanceResult
  | [], _ => none
  | e :: rest, k => if e.1 = k then some e.2 else cacheLookup rest k

/-- Modelled from the spec: the caching private
`DistanceCalculator::getDistance(kb, kind, target)`, whose body is not
in the header: return the cached result when present, otherwise compute
it and insert it into the cache. -/
def getDistance (cg : CodeGraph) (cache : DistCache) (kb : Nat) (kind : TargetKind)
    (target : Nat) : DistanceResult × DistCache :=
  match cacheLookup cache (target, kb, kind) with
  | some r => (r, cache)
  | none =>
    let r := computeDistance cg kb kind target
    (r, ((target, kb, kind), r) :: cache)

/-- Cache coherence: every entry equals a fresh computation at its key,
the spec's "the cache is pure with respect to the code graph". -/
def cacheCoherent (cg : CodeGraph) (cache : DistCache) : Prop :=
  ∀ k r, cacheLookup cache k = some r → r = computeDistance cg k.2.1 k.2.2 k.1

/-! ## Helper lemmas about the heap and the ordered binding map -/

theorem lookupCell_setCell (l : List (Nat × ObjectState)) (i : Nat) (os : ObjectState)
    (j : Nat) :
    lookupCell (setCell l i os) j =
      if j = i then (lookupCell l i).map (fun _ => os) else lookupCell l j := by
  induction l with
  | nil => simp [setCell, lookupCell]
  | cons c rest ih =>
    by_cases hc : c.1 = i
    · by_cases hj : j = i
      · simp [setCell, lookupCell, hc, hj]
      · have hij : ¬ i = j := fun hh => hj hh.symm
        simp [setCell, lookupCell, hc, hj, hij]
    · by_cases hj : c.1 = j
      · have : ¬ (j = i) := fun h => hc (hj.trans h)
        simp [setCell, lookupCell, hc, hj, this]
      · simp [setCell, lookupCell, hc, hj, ih]

theorem mapInsert_mem : ∀ (l : List (MemoryObject × Nat)) (mo : MemoryObject) (i : Nat)
    (e : MemoryObject × Nat), e ∈ mapInsert l mo i → e = (mo, i) ∨ e ∈ l
  | [], mo, i, e, he => by simpa [mapInsert] using he
  | c :: rest, mo, i, e, he => by
    unfold mapInsert at he
    split at he
    · rcases List.mem_cons.mp he with h | h
      · exact .inl h
      · exact .inr h
    · split at he
      · rcases List.mem_cons.mp he with h | h
        · exact .inl h
        · exact .inr (List.mem_cons_of_mem _ h)
      · rcases List.mem_cons.mp he with h | h
        · exact .inr (by simp [h])
        · rcases mapInsert_mem rest mo i e h with h' | h'
          · exact .inl h'
          · exact .inr (List.mem_cons_of_mem _ h')

theorem lookupMO_mapInsert_self : ∀ (l : List (MemoryObject × Nat)) (mo : MemoryObject)
    (i : Nat), lookupMO (mapInsert l mo i) mo = some i
  | [], mo, i => by simp [mapInsert, lookupMO]
  | c :: rest, mo, i => by
    unfold mapInsert
    split
    · simp [lookupMO]
    · split
      · simp [lookupMO]
      · next h1 h2 =>
        show (if c.1 = mo then some c.2 else lookupMO (mapInsert rest mo i) mo) = some i
        rw [if_neg h2]
        exact lookupMO_mapInsert_self rest mo i

theorem cowInvariant_iff (h : OSHeap) (as : AddressSpace) :
    cowInvariant h as = true ↔
      ∀ e ∈ as.objects, ∀ os, h.lookup e.2 = some os →
        os.copyOnWriteOwner ≤ as.cowKey := by
  simp only [cowInvariant, List.all_eq_true]
  constructor
  · intro H e he os hos
    have hh := H e he
    rw [hos] at hh
    simpa using hh
  · intro H e he
    cases hos : h.lookup e.2 with
    | none => simp
    | some os => simpa using H e he os hos

/-! ## Claim theorems: cloning and copy-on-write -/

/-- C1 (counterexample): the claim that after `as2 = clone(as1)` we have
`as2.cowKey > as1.cowKey` as observed after the clone is false: the copy
constructor pre-increments the source's `cowKey`, so the two keys are
equal afterwards.  Concretely, cloning a fresh address space leaves both
keys at 2. -/
theorem clone_cowKey_not_strictly_greater :
    ¬ ((AddressSpace.init.clone { cells := [], nextId := 0 }).2.2.cowKey >
       (AddressSpace.init.clone { cells := [], nextId := 0 }).2.1.cowKey) := by
  decide

/-- C1 (amended): after `as2 = clone(as1)`, `as2.cowKey` is `as1`'s
pre-clone `cowKey` incremented modulo `2^32` (the source's `unsigned`
pre-increment) and equal to `as1`'s post-clone `cowKey`; it is strictly
greater than the pre-clone key whenever that key is below `UINT_MAX`
(no wrap); the `objects` maps of both are the very map of the original
(structural sharing), and the object-state store is untouched (no
`ObjectState` is eagerly copied). -/
theorem clone_spec (h : OSHeap) (as : AddressSpace) :
    (as.clone h).2.2.cowKey = (as.cowKey + 1) % u32Mod ∧
    (as.clone h).2.2.cowKey = (as.clone h).2.1.cowKey ∧
    (as.cowKey < u32Mod - 1 → (as.clone h).2.2.cowKey > as.cowKey) ∧
    (as.clone h).2.2.objects = as.objects ∧
    (as.clone h).2.1.objects = as.objects ∧
    (as.clone h).1 = h := by
  refine ⟨rfl, rfl, ?_, rfl, rfl, rfl⟩
  intro hwrap
  show (as.cowKey + 1) % u32Mod > as.cowKey
  simp only [u32Mod] at hwrap ⊢
  omega

/-- C1 concrete instance of the amended statement: cloning a fresh
address space (key 1, far below `UINT_MAX`). -/
theorem clone_spec_witness :
    (AddressSpace.init.clone { cells := [], nextId := 0 }).2.2.cowKey =
      (AddressSpace.init.cowKey + 1) % u32Mod ∧
    (AddressSpace.init.clone { cells := [], nextId := 0 }).2.2.cowKey =
      (AddressSpace.init.clone { cells := [], nextId := 0 }).2.1.cowKey ∧
    (AddressSpace.init.clone { cells := [], nextId := 0 }).2.2.cowKey >
      AddressSpace.init.cowKey ∧
    (AddressSpace.init.clone { cells := [], nextId := 0 }).2.2.objects =
      AddressSpace.init.objects :=
  ⟨(clone_spec { cells := [], nextId := 0 } AddressSpace.init).1,
   (clone_spec { cells := [], nextId := 0 } AddressSpace.init).2.1,
   (clone_spec { cells := [], nextId := 0 } AddressSpace.init).2.2.1 (by decide),
   (clone_spec { cells := [], nextId := 0 } AddressSpace.init).2.2.2.1⟩

/-- C10: the copy constructor mutates its source through the `mutable`
field even though it takes it by const reference: after
`AddressSpace as2(as1)`, `as1.cowKey` has been incremented by one (the
program's `unsigned` increment, i.e. modulo `2^32`), `as2.cowKey`
equals `as1`'s new key, and `as2` inherits `as1`'s `complete` flag. -/
theorem clone_mutates_source (h : OSHeap) (as : AddressSpace) :
    (as.clone h).2.1.cowKey = (as.cowKey + 1) % u32Mod ∧
    (as.clone h).2.2.cowKey = (as.clone h).2.1.cowKey ∧
    (as.clone h).2.2.complete = as.complete :=
  ⟨rfl, rfl, rfl⟩

/-- Concrete memory object used by witness instances. -/
def witMO : MemoryObject := ⟨1, 16, 8, false, false, false⟩

/-- Concrete shared object state used by witness instances: its owner
stamp 2 differs from the owning address space's `cowKey` 5. -/
def witOS : ObjectState := ⟨2, false, [0, 0]⟩

/-- Concrete heap used by witness instances. -/
def witHeap : OSHeap := ⟨[(0, witOS)], 1⟩

/-- Concrete address space used by witness instances. -/
def witAS : AddressSpace := ⟨5, [(witMO, 0)], false⟩

/-- Object state with owner stamp 1, shared at the wrap boundary. -/
def wrapOS : ObjectState := ⟨1, false, [0]⟩

/-- Heap for the wrap counterexamples. -/
def wrapHeap : OSHeap := ⟨[(0, wrapOS)], 1⟩

/-- Address space sitting at `cowKey = UINT_MAX`: the next clone's
pre-increment wraps the key to 0. -/
def wrapAS : AddressSpace := ⟨4294967295, [(witMO, 0)], false⟩

/-- C2 (counterexample): cloning does not preserve the documented
invariant at `cowKey = UINT_MAX`: the `unsigned` pre-increment wraps
both keys to 0 while the bound object state keeps owner stamp 1, so
`copyOnWriteOwner ≤ cowKey` fails on the mutated source and on the
clone. -/
theorem cowInvariant_clone_wrap_counterexample :
    cowInvariant wrapHeap wrapAS = true ∧
    cowInvariant wrapHeap (wrapAS.clone wrapHeap).2.1 = false ∧
    cowInvariant wrapHeap (wrapAS.clone wrapHeap).2.2 = false := by
  decide

/-- C2 (amended): the documented invariant
`forall o in objects, o->copyOnWriteOwner <= cowKey` is preserved
unconditionally by `bindObject`, `unbindObject` and `getWriteable`
(resolution is const: it returns only a resolution list and a flag),
and by cloning provided the `cowKey` pre-increment does not wrap
(`cowKey < UINT_MAX`); at `cowKey = UINT_MAX` the wrap breaks it. -/
theorem cowInvariant_preserved (h : OSHeap) (as : AddressSpace) (mo : MemoryObject)
    (osId : Nat) (hinv : cowInvariant h as = true) :
    (as.cowKey < u32Mod - 1 →
      cowInvariant h (as.clone h).2.1 = true ∧
      cowInvariant h (as.clone h).2.2 = true) ∧
    cowInvariant (as.bindObject h mo osId).1 (as.bindObject h mo osId).2 = true ∧
    cowInvariant h (as.unbindObject mo) = true ∧
    cowInvariant (as.getWriteable h mo osId).1 (as.getWriteable h mo osId).2.1 = true := by
  rw [cowInvariant_iff] at hinv
  refine ⟨?_, ?_, ?_, ?_⟩
  · intro hwrap
    have heq : (as.cowKey + 1) % u32Mod = as.cowKey + 1 := by
      simp only [u32Mod] at hwrap ⊢
      omega
    constructor <;>
    · rw [cowInvariant_iff]
      intro e he os hos
      show os.copyOnWriteOwner ≤ (as.cowKey + 1) % u32Mod
      rw [heq]
      exact le_trans (hinv e he os hos) (Nat.le_succ _)
  · rw [cowInvariant_iff]
    intro e he os hos
    cases hl : h.lookup osId with
    | none =>
      simp only [AddressSpace.bindObject, hl] at he hos
      rcases mapInsert_mem _ _ _ _ he with rfl | he'
      · have hos' : h.lookup osId = some os := hos
        rw [hl] at hos'
        cases hos'
      · exact hinv e he' os hos
    | some os0 =>
      simp only [AddressSpace.bindObject, hl] at he hos
      have hos' : lookupCell (setCell h.cells osId
          { os0 with copyOnWriteOwner := as.cowKey }) e.2 = some os := hos
      rw [lookupCell_setCell] at hos'
      by_cases h2 : e.2 = osId
      · rw [if_pos h2, show lookupCell h.cells osId = some os0 from hl] at hos'
        cases hos'
        exact le_refl _
      · rw [if_neg h2] at hos'
        rcases mapInsert_mem _ _ _ _ he with rfl | he'
        · exact absurd rfl h2
        · exact hinv e he' os hos'
  · rw [cowInvariant_iff]
    intro e he os hos
    simp only [AddressSpace.unbindObject] at he
    exact hinv e (List.mem_of_mem_filter he) os hos
  · rw [cowInvariant_iff]
    intro e he os hos
    cases hl : h.lookup osId with
    | none =>
      have hred : as.getWriteable h mo osId = (h, as, osId) := by
        simp only [AddressSpace.getWriteable, hl]
      rw [hred] at he hos ⊢
      exact hinv e he os hos
    | some os0 =>
      by_cases ho : os0.copyOnWriteOwner = as.cowKey
      · have hred : as.getWriteable h mo osId = (h, as, osId) := by
          simp only [AddressSpace.getWriteable, hl, if_pos ho]
        rw [hred] at he hos ⊢
        exact hinv e he os hos
      · have hred : as.getWriteable h mo osId =
            ({ cells := (h.nextId, { os0 with copyOnWriteOwner := as.cowKey }) :: h.cells,
               nextId := h.nextId + 1 },
             { as with objects := mapInsert as.objects mo h.nextId }, h.nextId) := by
          simp only [AddressSpace.getWriteable, hl, if_neg ho, OSHeap.alloc]
        rw [hred] at he hos ⊢
        have hos' : lookupCell
            ((h.nextId, { os0 with copyOnWriteOwner := as.cowKey }) :: h.cells) e.2 =
            some os := hos
        simp only [lookupCell] at hos'
        by_cases h2 : h.nextId = e.2
        · rw [if_pos h2] at hos'
          cases hos'
          exact le_refl _
        · rw [if_neg h2] at hos'
          rcases mapInsert_mem _ _ _ _ he with rfl | he'
          · exact absurd rfl h2
          · exact hinv e he' os hos'

/-- C3: when `os` is the current binding of `mo`, `getWriteable(mo, os)`
returns an object state stamped with the address space's `cowKey`, and a
subsequent `findObject(mo)` returns exactly that object state (the clone
is rebound when one was made); the `cowKey` itself is unchanged. -/
theorem getWriteable_stamps_and_rebinds (h : OSHeap) (as : AddressSpace)
    (mo : MemoryObject) (osId : Nat) (os : ObjectState)
    (hbind : as.findObject mo = some osId)
    (hlook : h.lookup osId = some os) :
    ∃ os', (as.getWriteable h mo osId).1.lookup (as.getWriteable h mo osId).2.2 = some os' ∧
      os'.copyOnWriteOwner = as.cowKey ∧
      (as.getWriteable h mo osId).2.1.findObject mo = some (as.getWriteable h mo osId).2.2 ∧
      (as.getWriteable h mo osId).2.1.cowKey = as.cowKey := by
  by_cases ho : os.copyOnWriteOwner = as.cowKey
  · have hred : as.getWriteable h mo osId = (h, as, osId) := by
      simp only [AddressSpace.getWriteable, hlook, if_pos ho]
    rw [hred]
    exact ⟨os, hlook, ho, hbind, rfl⟩
  · have hred : as.getWriteable h mo osId =
        ({ cells := (h.nextId, { os with copyOnWriteOwner := as.cowKey }) :: h.cells,
           nextId := h.nextId + 1 },
         { as with objects := mapInsert as.objects mo h.nextId }, h.nextId) := by
      simp only [AddressSpace.getWriteable, hlook, if_neg ho, OSHeap.alloc]
    rw [hred]
    refine ⟨{ os with copyOnWriteOwner := as.cowKey }, ?_, rfl, ?_, rfl⟩
    · simp [OSHeap.lookup, lookupCell]
    · exact lookupMO_mapInsert_self _ _ _

/-- C3 concrete instance: `getWriteable` on a shared binding clones,
stamps and rebinds. -/
theorem getWriteable_stamps_and_rebinds_witness :
    witAS.findObject witMO = some 0 ∧ witHeap.lookup 0 = some witOS ∧
    (∃ os', (witAS.getWriteable witHeap witMO 0).1.lookup
        (witAS.getWriteable witHeap witMO 0).2.2 = some os' ∧
      os'.copyOnWriteOwner = witAS.cowKey ∧
      (witAS.getWriteable witHeap witMO 0).2.1.findObject witMO =
        some (witAS.getWriteable witHeap witMO 0).2.2 ∧
      (witAS.getWriteable witHeap witMO 0).2.1.cowKey = witAS.cowKey) :=
  ⟨by decide, by decide,
    getWriteable_stamps_and_rebinds witHeap witAS witMO 0 witOS (by decide) (by decide)⟩

/-- C2 concrete instance: the invariant holds on the witness state
(whose key 5 is far from the wrap boundary) and is preserved by each
operation there. -/
theorem cowInvariant_preserved_witness :
    cowInvariant witHeap witAS = true ∧
    witAS.cowKey < u32Mod - 1 ∧
    cowInvariant witHeap (witAS.clone witHeap).2.1 = true ∧
    cowInvariant witHeap (witAS.clone witHeap).2.2 = true ∧
    cowInvariant (witAS.bindObject witHeap witMO 0).1
      (witAS.bindObject witHeap witMO 0).2 = true ∧
    cowInvariant witHeap (witAS.unbindObject witMO) = true ∧
    cowInvariant (witAS.getWriteable witHeap witMO 0).1
      (witAS.getWriteable witHeap witMO 0).2.1 = true :=
  ⟨by decide, by decide,
   ((cowInvariant_preserved witHeap witAS witMO 0 (by decide)).1 (by decide)).1,
   ((cowInvariant_preserved witHeap witAS witMO 0 (by decide)).1 (by decide)).2,
   (cowInvariant_preserved witHeap witAS witMO 0 (by decide)).2.1,
   (cowInvariant_preserved witHeap witAS witMO 0 (by decide)).2.2.1,
   (cowInvariant_preserved witHeap witAS witMO 0 (by decide)).2.2.2⟩

/-! ## Claim theorems: DistanceResult ordering and the distance cache -/

theorem DistanceResult.lt_iff (a b : DistanceResult) :
    a.lt b = true ↔
      (a.result.rank < b.result.rank ∨
        (a.result.rank = b.result.rank ∧
          (a.weight < b.weight ∨
            (a.weight = b.weight ∧
              (if a.isInsideFunction then 0 else 1) <
                (if b.isInsideFunction then (0 : Nat) else 1))))) := by
  unfold DistanceResult.lt
  by_cases h1 : a.result.rank = b.result.rank
  · by_cases h2 : a.weight = b.weight
    · cases ha : a.isInsideFunction <;> cases hb : b.isInsideFunction <;>
        simp [h1, h2, ha, hb]
    · simp [h1, h2]
  · simp [h1]

theorem DistanceResult.lt_false_iff (a b : DistanceResult) :
    a.lt b = false ↔
      ¬ (a.result.rank < b.result.rank ∨
        (a.result.rank = b.result.rank ∧
          (a.weight < b.weight ∨
            (a.weight = b.weight ∧
              (if a.isInsideFunction then 0 else 1) <
                (if b.isInsideFunction then (0 : Nat) else 1))))) := by
  rw [← DistanceResult.lt_iff]
  cases a.lt b <;> simp

/-- C6: the modelled `DistanceResult::operator<` — lexicographic on
verdict rank (`Done < Continue < Miss`), then smaller weight, then
preferring `isInsideFunction` — is a strict weak order: irreflexive,
asymmetric, transitive, and with transitive incomparability. -/
theorem DistanceResult_lt_strict_weak_order :
    (∀ a : DistanceResult, a.lt a = false) ∧
    (∀ a b : DistanceResult, a.lt b = true → b.lt a = false) ∧
    (∀ a b c : DistanceResult, a.lt b = true → b.lt c = true → a.lt c = true) ∧
    (∀ a b c : DistanceResult, a.incomp b → b.incomp c → a.incomp c) := by
  refine ⟨?_, ?_, ?_, ?_⟩
  · intro a
    rw [DistanceResult.lt_false_iff]
    omega
  · intro a b hab
    rw [DistanceResult.lt_iff] at hab
    rw [DistanceResult.lt_false_iff]
    omega
  · intro a b c hab hbc
    rw [DistanceResult.lt_iff] at hab hbc ⊢
    omega
  · intro a b c hab hbc
    obtain ⟨h1, h2⟩ := hab
    obtain ⟨h3, h4⟩ := hbc
    rw [DistanceResult.lt_false_iff] at h1 h2 h3 h4
    exact ⟨(DistanceResult.lt_false_iff _ _).mpr (by omega),
           (DistanceResult.lt_false_iff _ _).mpr (by omega)⟩

/-- C6 concrete instance: the ordering components applied at concrete
results. -/
theorem DistanceResult_lt_strict_weak_order_witness :
    DistanceResult.lt ⟨.Done, 0, true⟩ ⟨.Continue, 1, true⟩ = true ∧
    DistanceResult.lt ⟨.Continue, 1, true⟩ ⟨.Miss, 0, true⟩ = true ∧
    DistanceResult.lt ⟨.Done, 0, true⟩ ⟨.Miss, 0, true⟩ = true ∧
    DistanceResult.lt ⟨.Continue, 1, true⟩ ⟨.Done, 0, true⟩ = false ∧
    DistanceResult.incomp ⟨.Miss, 3, false⟩ ⟨.Miss, 3, false⟩ :=
  ⟨by decide, by decide,
   DistanceResult_lt_strict_weak_order.2.2.1 ⟨.Done, 0, true⟩ ⟨.Continue, 1, true⟩
     ⟨.Miss, 0, true⟩ (by decide) (by decide),
   DistanceResult_lt_strict_weak_order.2.1 ⟨.Done, 0, true⟩ ⟨.Continue, 1, true⟩
     (by decide),
   DistanceResult_lt_strict_weak_order.2.2.2 ⟨.Miss, 3, false⟩ ⟨.Miss, 3, false⟩
     ⟨.Miss, 3, false⟩ ⟨by decide, by decide⟩ ⟨by decide, by decide⟩⟩

/-- C9: the distance cache never returns a value different from a fresh
computation: when every cache entry agrees with `computeDistance`, a
call returns exactly `computeDistance`, coherence is preserved, and an
immediately repeated call returns the identical result. -/
theorem getDistance_cache_deterministic (cg : CodeGraph) (cache : DistCache)
    (kb : Nat) (kind : TargetKind) (target : Nat)
    (hcoh : cacheCoherent cg cache) :
    (getDistance cg cache kb kind target).1 = computeDistance cg kb kind target ∧
    cacheCoherent cg (getDistance cg cache kb kind target).2 ∧
    (getDistance cg (getDistance cg cache kb kind target).2 kb kind target).1 =
      (getDistance cg cache kb kind target).1 := by
  cases hl : cacheLookup cache (target, kb, kind) with
  | some r =>
    have hred : getDistance cg cache kb kind target = (r, cache) := by
      simp only [getDistance, hl]
    rw [hred]
    exact ⟨hcoh _ _ hl, hcoh, by simp only [getDistance, hl]⟩
  | none =>
    have hred : getDistance cg cache kb kind target =
        (computeDistance cg kb kind target,
         ((target, kb, kind), computeDistance cg kb kind target) :: cache) := by
      simp only [getDistance, hl]
    rw [hred]
    refine ⟨rfl, ?_, ?_⟩
    · intro k r hk
      simp only [cacheLookup] at hk
      split at hk
      · next heq =>
        cases hk
        cases heq
        rfl
      · exact hcoh k r hk
    · simp [getDistance, cacheLookup]

/-- Concrete code graph used by the C9 witness. -/
def witCG : CodeGraph := ⟨fun _ _ => some 3, fun _ _ => none, fun _ => 0, fun _ => []⟩

/-- C9 concrete instance: starting from the empty (coherent) cache. -/
theorem getDistance_cache_deterministic_witness :
    (getDistance witCG [] 0 TargetKind.LocalTarget 0).1 =
      computeDistance witCG 0 TargetKind.LocalTarget 0 ∧
    cacheCoherent witCG (getDistance witCG [] 0 TargetKind.LocalTarget 0).2 ∧
    (getDistance witCG (getDistance witCG [] 0 TargetKind.LocalTarget 0).2 0
        TargetKind.LocalTarget 0).1 =
      (getDistance witCG [] 0 TargetKind.LocalTarget 0).1 :=
  getDistance_cache_deterministic witCG [] 0 TargetKind.LocalTarget 0
    (fun k r hk => by simp [cacheLookup] at hk)

/-! ## Claim theorems: read-only detection in copyInConcretes -/

theorem readOnlyViolation_cons (h : OSHeap) (ext : MemoryObject → List Nat)
    (e : MemoryObject × Nat) (rest : List (MemoryObject × Nat)) :
    readOnlyViolation h ext (e :: rest) =
      ((match h.lookup e.2 with
        | none => false
        | some os => os.readOnly && decide (ext e.1 ≠ os.bytes)) ||
       readOnlyViolation h ext rest) := by
  simp [readOnlyViolation]

theorem readOnlyViolation_set (h : OSHeap) (ext : MemoryObject → List Nat)
    (i : Nat) (os0 os0' : ObjectState) (hl : h.lookup i = some os0)
    (hro : os0.readOnly = false) (hro' : os0'.readOnly = false)
    (l : List (MemoryObject × Nat)) :
    readOnlyViolation (h.set i os0') ext l = readOnlyViolation h ext l := by
  induction l with
  | nil => rfl
  | cons e rest ih =>
    rw [readOnlyViolation_cons, readOnlyViolation_cons, ih]
    congr 1
    have hset : (h.set i os0').lookup e.2 =
        if e.2 = i then (h.lookup i).map (fun _ => os0') else h.lookup e.2 :=
      lookupCell_setCell h.cells i os0' e.2
    by_cases h2 : e.2 = i
    · rw [hset, if_pos h2, h2, hl]
      simp [hro, hro']
    · rw [hset, if_neg h2]

theorem copyInLoop_false_iff (ext : MemoryObject → List Nat) :
    ∀ (l : List (MemoryObject × Nat)) (h : OSHeap),
      ((copyInLoop ext l h).1 = false ↔ readOnlyViolation h ext l = true)
  | [], h => by simp [copyInLoop, readOnlyViolation]
  | e :: rest, h => by
    rw [readOnlyViolation_cons]
    cases hl : h.lookup e.2 with
    | none =>
      simp only [copyInLoop, hl, Bool.false_or]
      exact copyInLoop_false_iff ext rest h
    | some os =>
      by_cases heq : ext e.1 = os.bytes
      · simp only [copyInLoop, hl, if_pos heq]
        rw [copyInLoop_false_iff ext rest h]
        simp [heq]
      · by_cases hro : os.readOnly = true
        · simp only [copyInLoop, hl, if_neg heq, if_pos hro]
          simp [hro, heq]
        · have hro' : os.readOnly = false := by
            cases hx : os.readOnly
            · rfl
            · exact absurd hx hro
          simp only [copyInLoop, hl, if_neg heq, if_neg hro]
          rw [copyInLoop_false_iff ext rest (h.set e.2 { os with bytes := ext e.1 }),
            readOnlyViolation_set h ext e.2 os { os with bytes := ext e.1 } hl hro' hro' rest]
          simp [hro']

/-- C8: `copyInConcretes` returns `false` if and only if some binding
refers to a read-only object state whose external memory image was
modified (differs from its current bytes); with no such violation the
copy succeeds and returns `true`. -/
theorem copyInConcretes_false_iff (h : OSHeap) (as : AddressSpace)
    (ext : MemoryObject → List Nat) :
    ((as.copyInConcretes h ext).1 = false ↔
      readOnlyViolation h ext as.objects = true) :=
  copyInLoop_false_iff ext as.objects h

/-! ## Claim theorems: copy-on-write isolation -/

theorem lookupCell_mem : ∀ (l : List (Nat × ObjectState)) (j : Nat) (os : ObjectState),
    lookupCell l j = some os → ∃ c ∈ l, c.1 = j ∧ c.2 = os
  | [], j, os, hl => by simp [lookupCell] at hl
  | c :: rest, j, os, hl => by
    simp only [lookupCell] at hl
    split at hl
    · next hc => exact ⟨c, by simp, hc, by cases hl; rfl⟩
    · obtain ⟨c', hc', h1, h2⟩ := lookupCell_mem rest j os hl
      exact ⟨c', by simp [hc'], h1, h2⟩

theorem lookupCell_lt_of_wf (h : OSHeap) (j : Nat) (os : ObjectState)
    (hwf : h.wf = true) (hl : h.lookup j = some os) : j < h.nextId := by
  rw [OSHeap.wf, List.all_eq_true] at hwf
  obtain ⟨c, hc, h1, _⟩ := lookupCell_mem h.cells j os hl
  have := hwf c hc
  simp only [decide_eq_true_eq] at this
  omega

theorem lookupMO_mem : ∀ (l : List (MemoryObject × Nat)) (mo : MemoryObject) (i : Nat),
    lookupMO l mo = some i → ∃ c ∈ l, c.1 = mo
  | [], mo, i, hl => by simp [lookupMO] at hl
  | c :: rest, mo, i, hl => by
    simp only [lookupMO] at hl
    split at hl
    · next hc => exact ⟨c, by simp, hc⟩
    · obtain ⟨c', hc', h1⟩ := lookupMO_mem rest mo i hl
      exact ⟨c', by simp [hc'], h1⟩

theorem MemoryObjectLT_irrefl (a : MemoryObject) : MemoryObjectLT a a = false := by
  simp [MemoryObjectLT]

theorem MemoryObjectLT_trans {a b c : MemoryObject} (h1 : MemoryObjectLT a b = true)
    (h2 : MemoryObjectLT b c = true) : MemoryObjectLT a c = true := by
  simp only [MemoryObjectLT, Bool.or_eq_true, Bool.and_eq_true, decide_eq_true_eq,
    beq_iff_eq] at h1 h2 ⊢
  omega

theorem sortedMap_tail : ∀ {e : MemoryObject × Nat} {rest : List (MemoryObject × Nat)},
    sortedMap (e :: rest) = true → sortedMap rest = true
  | _, [], _ => rfl
  | _, _ :: _, h => by
    simp only [sortedMap, Bool.and_eq_true] at h
    exact h.2

theorem sortedMap_head_lt : ∀ {e : MemoryObject × Nat} {rest : List (MemoryObject × Nat)},
    sortedMap (e :: rest) = true → ∀ b ∈ rest, MemoryObjectLT e.1 b.1 = true
  | _, [], _, b, hb => by simp at hb
  | e, c :: rest, h, b, hb => by
    simp only [sortedMap, Bool.and_eq_true] at h
    rcases List.mem_cons.mp hb with rfl | hb'
    · exact h.1
    · exact MemoryObjectLT_trans h.1 (sortedMap_head_lt h.2 b hb')

theorem mapInsert_length : ∀ (l : List (MemoryObject × Nat)) (mo : MemoryObject)
    (i i0 : Nat), sortedMap l = true → lookupMO l mo = some i0 →
    (mapInsert l mo i).length = l.length
  | [], mo, i, i0, _, hl => by simp [lookupMO] at hl
  | e :: rest, mo, i, i0, hs, hl => by
    unfold mapInsert
    by_cases h1 : MemoryObjectLT mo e.1 = true
    · exfalso
      simp only [lookupMO] at hl
      split at hl
      · next he =>
        rw [he] at h1
        rw [MemoryObjectLT_irrefl] at h1
        cases h1
      · obtain ⟨c, hc, hcm⟩ := lookupMO_mem rest mo i0 hl
        have h2 : MemoryObjectLT e.1 c.1 = true := sortedMap_head_lt hs c hc
        rw [hcm] at h2
        have h3 := MemoryObjectLT_trans h1 h2
        rw [MemoryObjectLT_irrefl] at h3
        cases h3
    · rw [if_neg h1]
      by_cases h2 : e.1 = mo
      · rw [if_pos h2]
        simp
      · rw [if_neg h2]
        have hl' : lookupMO rest mo = some i0 := by
          simpa [lookupMO, h2] using hl
        simp only [List.length_cons]
        rw [mapInsert_length rest mo i i0 (sortedMap_tail hs) hl']

/-- Modelled from the spec: the COW-isolation scenario of the spec's
end-to-end example — clone `as1`, then on the clone make `mo`'s binding
writeable and write byte `v` at offset `off` through the returned
pointer.  Returns the final heap, the post-clone original, the
post-write clone, and the identifier returned by `getWriteable`. -/
def cowWriteScenario (h : OSHeap) (as1 : AddressSpace) (mo : MemoryObject)
    (osId off v : Nat) : OSHeap × AddressSpace × AddressSpace × Nat :=
  let cl := as1.clone h
  let gw := (cl.2.2).getWriteable cl.1 mo osId
  (gw.1.writeByte gw.2.2 off v, cl.2.1, gw.2.1, gw.2.2)

/-- Object state with owner stamp 0, shared at the wrap boundary. -/
def wrapOS0 : ObjectState := ⟨0, false, [0]⟩

/-- Heap for the C4 wrap counterexample. -/
def wrapHeap0 : OSHeap := ⟨[(0, wrapOS0)], 1⟩

/-- C4 (counterexample): at the wrap boundary isolation fails.  With
`as1.cowKey = UINT_MAX` and a shared object state stamped 0 (the COW
invariant holds), the clone's wrapped key is 0 and equals the stamp, so
`getWriteable` takes the in-place branch and the write is visible
through the original address space's binding. -/
theorem cow_isolation_wrap_counterexample :
    cowInvariant wrapHeap0 wrapAS = true ∧
    (cowWriteScenario wrapHeap0 wrapAS witMO 0 0 1).2.1.findObject witMO = some 0 ∧
    ¬ ((cowWriteScenario wrapHeap0 wrapAS witMO 0 0 1).1.lookup 0 = some wrapOS0) := by
  decide

/-- C4 (amended): writing through the object state returned by
`getWriteable` on a clone leaves the view of the original address space
unchanged, provided the clone's `cowKey` pre-increment did not wrap
(`as1.cowKey < UINT_MAX`; at the wrap an owner-0 state is mutated in
place).  Under the COW invariant (`os.copyOnWriteOwner ≤ as1.cowKey`),
heap well-formedness and map sortedness: after the scenario the
original still binds `mo` to the untouched `os`, the clone binds `mo`
to a fresh cell holding the written copy, and both `objects` maps have
the same spine size. -/
theorem cow_isolation (h : OSHeap) (as1 : AddressSpace) (mo : MemoryObject)
    (osId off v : Nat) (os : ObjectState)
    (hfind : as1.findObject mo = some osId)
    (hlook : h.lookup osId = some os)
    (hown : os.copyOnWriteOwner ≤ as1.cowKey)
    (hwrap : as1.cowKey < u32Mod - 1)
    (hwf : h.wf = true)
    (hsort : sortedMap as1.objects = true) :
    (cowWriteScenario h as1 mo osId off v).2.1.findObject mo = some osId ∧
    (cowWriteScenario h as1 mo osId off v).1.lookup osId = some os ∧
    (cowWriteScenario h as1 mo osId off v).2.2.1.findObject mo =
      some (cowWriteScenario h as1 mo osId off v).2.2.2 ∧
    (cowWriteScenario h as1 mo osId off v).1.lookup
        (cowWriteScenario h as1 mo osId off v).2.2.2 =
      some (ObjectState.writeByte
        ⟨(as1.cowKey + 1) % u32Mod, os.readOnly, os.bytes⟩ off v) ∧
    (cowWriteScenario h as1 mo osId off v).2.2.1.objects.length =
      (cowWriteScenario h as1 mo osId off v).2.1.objects.length := by
  have hlt : osId < h.nextId := lookupCell_lt_of_wf h osId os hwf hlook
  have hne : ¬ (h.nextId = osId) := by omega
  have heq : (as1.cowKey + 1) % u32Mod = as1.cowKey + 1 := by
    simp only [u32Mod] at hwrap ⊢
    omega
  have hown' : ¬ (os.copyOnWriteOwner = (as1.cowKey + 1) % u32Mod) := by
    rw [heq]
    omega
  have hred : cowWriteScenario h as1 mo osId off v =
      ({ cells := (h.nextId,
            ObjectState.writeByte
              ⟨(as1.cowKey + 1) % u32Mod, os.readOnly, os.bytes⟩ off v) :: h.cells,
         nextId := h.nextId + 1 },
       { as1 with cowKey := (as1.cowKey + 1) % u32Mod },
       { cowKey := (as1.cowKey + 1) % u32Mod,
         objects := mapInsert as1.objects mo h.nextId,
         complete := as1.complete },
       h.nextId) := by
    have hlook' : lookupCell h.cells osId = some os := hlook
    simp only [cowWriteScenario, AddressSpace.clone, AddressSpace.getWriteable,
      OSHeap.alloc, OSHeap.writeByte, OSHeap.set, OSHeap.lookup, hlook', if_neg hown']
    simp [lookupCell, setCell]
  rw [hred]
  refine ⟨hfind, ?_, lookupMO_mapInsert_self _ _ _, ?_, ?_⟩
  · show lookupCell ((h.nextId, _) :: h.cells) osId = some os
    simp only [lookupCell, if_neg hne]
    exact hlook
  · show lookupCell ((h.nextId, _) :: h.cells) h.nextId = some _
    simp [lookupCell]
  · exact mapInsert_length as1.objects mo h.nextId osId hsort hfind

/-- C4 concrete instance: the spec's scenario with content `[0, 0]`,
writing `1` at offset 0 in the clone; the witness key 5 is far from the
wrap boundary. -/
theorem cow_isolation_witness :
    (cowWriteScenario witHeap witAS witMO 0 0 1).2.1.findObject witMO = some 0 ∧
    (cowWriteScenario witHeap witAS witMO 0 0 1).1.lookup 0 = some witOS ∧
    (cowWriteScenario witHeap witAS witMO 0 0 1).2.2.1.findObject witMO =
      some (cowWriteScenario witHeap witAS witMO 0 0 1).2.2.2 ∧
    (cowWriteScenario witHeap witAS witMO 0 0 1).1.lookup
        (cowWriteScenario witHeap witAS witMO 0 0 1).2.2.2 =
      some (ObjectState.writeByte
        ⟨(witAS.cowKey + 1) % u32Mod, witOS.readOnly, witOS.bytes⟩ 0 1) ∧
    (cowWriteScenario witHeap witAS witMO 0 0 1).2.2.1.objects.length =
      (cowWriteScenario witHeap witAS witMO 0 0 1).2.1.objects.length :=
  cow_isolation witHeap witAS witMO 0 0 1 witOS (by decide) (by decide) (by decide)
    (by decide) (by decide) (by decide)

/-! ## Claim theorems: resolution order and resolveOne/resolve agreement -/

theorem sortedMap_iff_pairwise : ∀ l : List (MemoryObject × Nat),
    sortedMap l = true ↔ l.Pairwise (fun a b => MemoryObjectLT a.1 b.1 = true)
  | [] => by simp [sortedMap]
  | e :: rest => by
    rw [List.pairwise_cons]
    constructor
    · intro hs
      exact ⟨sortedMap_head_lt hs, (sortedMap_iff_pairwise rest).mp (sortedMap_tail hs)⟩
    · rintro ⟨hlt, hp⟩
      cases rest with
      | nil => rfl
      | cons b rest' =>
        simp only [sortedMap, Bool.and_eq_true]
        exact ⟨hlt b (by simp), (sortedMap_iff_pairwise (b :: rest')).mpr hp⟩

theorem resolveLoopSorted (s : Solver) (p : PtrExpr) (halt : Bool) (maxRes : Nat) :
    ∀ (cands rl : List (MemoryObject × Nat)) (budget : Option Nat),
      (rl ++ cands).Pairwise (fun a b => MemoryObjectLT a.1 b.1 = true) →
      ((resolveLoop s p halt maxRes cands rl budget).1).Pairwise
        (fun a b => MemoryObjectLT a.1 b.1 = true)
  | [], rl, budget, hp => by simpa [resolveLoop] using hp
  | e :: cands, rl, budget, hp => by
    have hleft : rl.Pairwise (fun a b => MemoryObjectLT a.1 b.1 = true) :=
      (List.pairwise_append.mp hp).1
    have happ : (rl ++ [e]).Pairwise (fun a b => MemoryObjectLT a.1 b.1 = true) := by
      refine List.Pairwise.sublist ?_ hp
      exact (List.cons_sublist_cons.mpr (List.nil_sublist cands)).append_left rl
    by_cases hh : halt
    · simpa [resolveLoop, hh] using hleft
    · by_cases hb : budget = some 0
      · simpa [resolveLoop, hh, hb] using hleft
      · cases hmay : s.mayPointTo p e.1 with
        | none => simpa [resolveLoop, hh, hb, checkPointerInObject, hmay] using hleft
        | some bb =>
          cases bb with
          | false =>
            have hsub : (rl ++ cands).Pairwise
                (fun a b => MemoryObjectLT a.1 b.1 = true) := by
              refine List.Pairwise.sublist ?_ hp
              exact ((cands.sublist_cons_self e)).append_left rl
            simpa [resolveLoop, hh, hb, checkPointerInObject, hmay] using
              resolveLoopSorted s p halt maxRes cands rl (budget.map (· - 1)) hsub
          | true =>
            by_cases hmx : maxRes ≠ 0 ∧ rl.length + 1 = maxRes
            · simpa [resolveLoop, hh, hb, checkPointerInObject, hmay, hmx] using happ
            · cases hmust : s.mustPointTo p e.1 with
              | none =>
                simpa [resolveLoop, hh, hb, checkPointerInObject, hmay, hmx, hmust]
                  using happ
              | some cc =>
                cases cc with
                | true =>
                  simp [resolveLoop, hh, hb, checkPointerInObject, hmay, hmx, hmust]
                | false =>
                  have hsub : ((rl ++ [e]) ++ cands).Pairwise
                      (fun a b => MemoryObjectLT a.1 b.1 = true) := by
                    rw [List.append_assoc]
                    simpa using hp
                  simpa [resolveLoop, hh, hb, checkPointerInObject, hmay, hmx, hmust]
                    using resolveLoopSorted s p halt maxRes cands (rl ++ [e])
                      (budget.map (· - 1)) hsub

/-- C5: on a sorted `objects` map, the resolution list produced by
`resolve` is strictly increasing in the `MemoryObjectLT` order
(address, then `id` as tie-breaker).  Determinism across runs is
inherent: the model is a pure function of the address space and the
solver oracle. -/
theorem resolve_sorted (as : AddressSpace) (s : Solver) (p : PtrExpr) (halt : Bool)
    (maxRes : Nat) (budget : Option Nat)
    (hsort : sortedMap as.objects = true) :
    sortedMap (as.resolve s p halt maxRes budget).1 = true := by
  rw [sortedMap_iff_pairwise] at hsort ⊢
  cases hr : s.range p with
  | none => simp [AddressSpace.resolve, hr]
  | some mnmx =>
    obtain ⟨mn, mx⟩ := mnmx
    simp only [AddressSpace.resolve, hr]
    exact resolveLoopSorted s p halt maxRes _ [] budget
      (by simpa using hsort.filter _)

/-- Concrete solver used by witness instances: every query answers, the
range covers the witness object, and `witMO` is the unique target. -/
def witSolver : Solver :=
  ⟨fun _ => some 20, fun _ => some (0, 100),
   fun _ mo => some (decide (mo = witMO)), fun _ mo => some (decide (mo = witMO))⟩

/-- C5 concrete instance: resolving over the witness address space with
its sorted binding list. -/
theorem resolve_sorted_witness :
    sortedMap witAS.objects = true ∧
    sortedMap (witAS.resolve witSolver (PtrExpr.mk 0) false 0 none).1 = true :=
  ⟨by decide, resolve_sorted witAS witSolver (PtrExpr.mk 0) false 0 none (by decide)⟩

theorem sortedMap_key_unique : ∀ {l : List (MemoryObject × Nat)},
    sortedMap l = true → ∀ a ∈ l, ∀ b ∈ l, a.1 = b.1 → a = b
  | [], _, a, ha, _, _, _ => by simp at ha
  | e :: rest, hs, a, ha, b, hb, hab => by
    rcases List.mem_cons.mp ha with rfl | ha' <;> rcases List.mem_cons.mp hb with rfl | hb'
    · rfl
    · exfalso
      have hlt := sortedMap_head_lt hs b hb'
      rw [← hab] at hlt
      rw [MemoryObjectLT_irrefl] at hlt
      cases hlt
    · exfalso
      have hlt := sortedMap_head_lt hs a ha'
      rw [hab] at hlt
      rw [MemoryObjectLT_irrefl] at hlt
      cases hlt
    · exact sortedMap_key_unique (sortedMap_tail hs) a ha' b hb' hab

theorem resolveLoopUnique (s : Solver) (p : PtrExpr) (halt : Bool) (maxRes : Nat)
    (q : MemoryObject × Nat) (hmust : s.mustPointTo p q.1 = some true)
    (hmayq : ¬ s.mayPointTo p q.1 = some false)
    (hmax : 2 ≤ maxRes) :
    ∀ (cands : List (MemoryObject × Nat)) (budget : Option Nat),
      q ∈ cands →
      (∀ e ∈ cands, s.mayPointTo p e.1 = some true → e.1 = q.1) →
      (∀ a ∈ cands, ∀ b ∈ cands, a.1 = b.1 → a = b) →
      (resolveLoop s p halt maxRes cands [] budget = ([q], false) ∨
        (resolveLoop s p halt maxRes cands [] budget).2 = true)
  | [], _, hq, _, _ => by simp at hq
  | e :: cands, budget, hq, hcons, huniq => by
    by_cases hh : halt
    · right
      simp [resolveLoop, hh]
    · by_cases hb : budget = some 0
      · right
        simp [resolveLoop, hh, hb]
      · cases hmay : s.mayPointTo p e.1 with
        | none =>
          right
          simp [resolveLoop, hh, hb, checkPointerInObject, hmay]
        | some bb =>
          cases bb with
          | false =>
            have hne : ¬ (q = e) := fun hEq => hmayq (by rw [hEq]; exact hmay)
            have hq' : q ∈ cands := by
              rcases List.mem_cons.mp hq with h | h
              · exact absurd h hne
              · exact h
            have hrec := resolveLoopUnique s p halt maxRes q hmust hmayq hmax cands
              (budget.map (· - 1)) hq'
              (fun a ha hma => hcons a (List.mem_cons_of_mem _ ha) hma)
              (fun a ha b hb2 hab =>
                huniq a (List.mem_cons_of_mem _ ha) b (List.mem_cons_of_mem _ hb2) hab)
            simpa [resolveLoop, hh, hb, checkPointerInObject, hmay] using hrec
          | true =>
            have heq : e = q := huniq e (by simp) q hq (hcons e (by simp) hmay)
            subst heq
            have hmx : ¬ (maxRes ≠ 0 ∧ (0 : Nat) + 1 = maxRes) := by omega
            left
            simp [resolveLoop, hh, hb, checkPointerInObject, hmay, hmust, hmx]

/-- C7: if the symbolic `resolveOne` succeeds with object pair `q`, then
`resolve` with `maxResolutions ≥ 2` either yields exactly `[q]` with
`incomplete = false` or reports `incomplete = true`.  The hypotheses are
the solver-consistency conditions implicit in the spec's uniqueness
query: `mayPointTo` cannot name a different object than `q`, cannot deny
`q`, and the `getRange` bounds cover the picked concrete value. -/
theorem resolveOne_resolve_agree (as : AddressSpace) (s : Solver) (p : PtrExpr)
    (q : MemoryObject × Nat) (halt : Bool) (maxRes : Nat) (budget : Option Nat)
    (hsort : sortedMap as.objects = true)
    (hres : (as.resolveOne s p).result = some q)
    (hsucc : (as.resolveOne s p).success = true)
    (hmax : 2 ≤ maxRes)
    (hcons : ∀ e ∈ as.objects, s.mayPointTo p e.1 = some true → e.1 = q.1)
    (hmayq : ¬ s.mayPointTo p q.1 = some false)
    (hrange : match s.pick p, s.range p with
      | some v, some (mn, mx) => mn ≤ v ∧ v ≤ mx
      | _, _ => True) :
    (as.resolve s p halt maxRes budget = ([q], false) ∨
      (as.resolve s p halt maxRes budget).2 = true) := by
  cases hpick : s.pick p with
  | none =>
    exfalso
    simp only [AddressSpace.resolveOne, hpick] at hsucc
    simp at hsucc
  | some v =>
    cases hfind : as.objects.find?
        (fun e => decide (e.1.address ≤ v ∧ v < e.1.address + e.1.size)) with
    | none =>
      exfalso
      simp only [AddressSpace.resolveOne, hpick, hfind] at hsucc
      simp at hsucc
    | some e0 =>
      cases hmust0 : s.mustPointTo p e0.1 with
      | none =>
        exfalso
        simp only [AddressSpace.resolveOne, hpick, hfind, hmust0] at hsucc
        simp at hsucc
      | some b0 =>
        cases b0 with
        | false =>
          exfalso
          simp only [AddressSpace.resolveOne, hpick, hfind, hmust0] at hsucc
          simp at hsucc
        | true =>
          have he0 : e0 = q := by
            have hx := hres
            simp only [AddressSpace.resolveOne, hpick, hfind, hmust0] at hx
            simpa using hx
          subst he0
          have hqmem : e0 ∈ as.objects := List.mem_of_find?_eq_some hfind
          have hpred : e0.1.address ≤ v ∧ v < e0.1.address + e0.1.size := by
            have hx := List.find?_some hfind
            simpa using hx
          cases hr : s.range p with
          | none =>
            right
            simp [AddressSpace.resolve, hr]
          | some mnmx =>
            obtain ⟨mn, mx⟩ := mnmx
            simp only [hpick, hr] at hrange
            have hqf : e0 ∈ as.objects.filter
                (fun e => decide (e.1.address ≤ mx ∧ mn < e.1.address + e.1.size)) := by
              refine List.mem_filter.mpr ⟨hqmem, ?_⟩
              simp only [decide_eq_true_eq]
              omega
            have huniq : ∀ a ∈ as.objects.filter
                  (fun e => decide (e.1.address ≤ mx ∧ mn < e.1.address + e.1.size)),
                ∀ b ∈ as.objects.filter
                  (fun e => decide (e.1.address ≤ mx ∧ mn < e.1.address + e.1.size)),
                a.1 = b.1 → a = b :=
              fun a ha b hb hab =>
                sortedMap_key_unique hsort a (List.mem_of_mem_filter ha) b
                  (List.mem_of_mem_filter hb) hab
            have hcons' : ∀ a ∈ as.objects.filter
                  (fun e => decide (e.1.address ≤ mx ∧ mn < e.1.address + e.1.size)),
                s.mayPointTo p a.1 = some true → a.1 = e0.1 :=
              fun a ha hma => hcons a (List.mem_of_mem_filter ha) hma
            have hloop := resolveLoopUnique s p halt maxRes e0 hmust0 hmayq hmax
              (as.objects.filter
                (fun e => decide (e.1.address ≤ mx ∧ mn < e.1.address + e.1.size)))
              budget hqf hcons' huniq
            simpa [AddressSpace.resolve, hr] using hloop

/-- C7 concrete instance: over the witness address space, `resolveOne`
succeeds with `(witMO, 0)` and `resolve` with bound 2 agrees. -/
theorem resolveOne_resolve_agree_witness :
    (witAS.resolve witSolver (PtrExpr.mk 0) false 2 none = ([(witMO, 0)], false) ∨
      (witAS.resolve witSolver (PtrExpr.mk 0) false 2 none).2 = true) :=
  resolveOne_resolve_agree witAS witSolver (PtrExpr.mk 0) (witMO, 0) false 2 none
    (by decide) (by decide) (by decide) (by decide) (by decide) (by decide)
    (by decide : (0 : Nat) ≤ 20 ∧ (20 : Nat) ≤ 100)
